import Mathlib

/-!
# Verification of the chert backend's commit, replication and write-buffer code

Shallow embedding of `xapian-core/backends/chert/chert_database.cc` and
`chert_positionlist.cc`.  Byte strings are modelled as `List Nat` (each
element a byte value), machine unsigned integers as `Nat`, C++ exceptions as
`Except ChertError`.  External collaborators (tables, the bit-level
interpolative codec, the filesystem) are modelled as explicit oracles or
abstract state, following the structure of the source.
-/

set_option maxHeartbeats 1000000

/-- The Xapian error kinds thrown by the code under study
(`xapian/error.h` collaborator). -/
inductive ChertError
  | DatabaseOpeningError
  | DatabaseCreateError
  | DatabaseCorruptError
  | DatabaseModifiedError
  | DatabaseError
  | FeatureUnavailableError
  | InvalidArgumentError
  | DocNotFoundError
  deriving DecidableEq, Repr

/-- Modelled from the spec: `pack_uint` from `pack.h` (not under `src/`),
"variable-length little-endian base-128 (7 bits + continuation)".  Each
emitted byte holds 7 low-order bits; the high bit is set on every byte but
the last. -/
def packUint (n : Nat) : List Nat :=
  if h : n < 128 then [n]
  else (n % 128 + 128) :: packUint (n / 128)
  decreasing_by exact Nat.div_lt_self (by omega) (by omega)

/-- Modelled from the spec: `unpack_uint` from `pack.h` (not under `src/`),
the inverse reader of the base-128 coding: bytes with the high bit set
continue the number, a byte below 128 ends it.  Returns the value and the
unconsumed remainder, or `none` if the input ends mid-number. -/
def unpackUint : List Nat → Option (Nat × List Nat)
  | [] => none
  | b :: rest =>
    if b < 128 then some (b, rest)
    else
      match unpackUint rest with
      | none => none
      | some (v, rem) => some (v * 128 + (b - 128), rem)

theorem unpackUint_packUint (n : Nat) (rest : List Nat) :
    unpackUint (packUint n ++ rest) = some (n, rest) := by
  induction n using Nat.strong_induction_on with
  | _ n ih =>
    rw [packUint]
    by_cases h : n < 128
    · simp [h, unpackUint]
    · have hd : n / 128 < n := Nat.div_lt_self (by omega) (by omega)
      simp only [h, dite_false, List.cons_append, unpackUint]
      have hb : ¬ (n % 128 + 128 < 128) := by omega
      simp only [hb, if_false, ih (n / 128) hd]
      have hmod : n / 128 * 128 + (n % 128 + 128 - 128) = n := by
        have := Nat.div_add_mod n 128
        omega
      simp only [hmod]

/-- Modelled from the spec: `CHANGES_MAGIC_STRING` from
`chert_replicate_internal.h` (not under `src/`), "a fixed byte sequence"
at the start of every changeset file. -/
def CHANGES_MAGIC : List Nat := [67, 104, 101, 114, 116, 67, 104, 97, 110, 103, 101, 115]

/-- Modelled from the spec: `CHANGES_VERSION` from
`chert_replicate_internal.h` (not under `src/`), the packed-uint format
version number of the changeset header. -/
def CHANGES_VERSION : Nat := 1

/-- The changeset header bytes assembled by `ChertDatabase::set_revision_number`
(chert_database.cc:434-442): magic string, packed `CHANGES_VERSION`, packed
old revision, packed new revision, then a packed `0u` danger flag (changes
can be applied to a live database). -/
def changesetHeader (oldRevision newRevision : Nat) : List Nat :=
  CHANGES_MAGIC ++ packUint CHANGES_VERSION ++ packUint oldRevision ++
    packUint newRevision ++ packUint 0

/-- `ChertDatabase::get_changeset_revisions` (chert_database.cc:346-394),
reading from the byte contents of the changeset file: check the magic
string prefix, require at least one byte after it, unpack and check the
version, then unpack the start and end revisions.  Every read failure
throws `DatabaseError`. -/
def get_changeset_revisions (data : List Nat) : Except ChertError (Nat × Nat) :=
  if data.take CHANGES_MAGIC.length ≠ CHANGES_MAGIC then
    .error .DatabaseError
  else
    let rest := data.drop CHANGES_MAGIC.length
    if rest.isEmpty then .error .DatabaseError
    else
      match unpackUint rest with
      | none => .error .DatabaseError
      | some (v, rest2) =>
        if v ≠ CHANGES_VERSION then .error .DatabaseError
        else
          match unpackUint rest2 with
          | none => .error .DatabaseError
          | some (s, rest3) =>
            match unpackUint rest3 with
            | none => .error .DatabaseError
            | some (e, _) => .ok (s, e)

/-- **C4.** For every commit from revision `r` to revision `r'`, the header
written by `set_revision_number` is precisely what
`get_changeset_revisions` reads back: parsing the header (followed by any
table-blob bytes) succeeds and returns exactly the pair `(r, r')`. -/
theorem changeset_roundtrip (r r' : Nat) (blobs : List Nat) :
    get_changeset_revisions (changesetHeader r r' ++ blobs) = .ok (r, r') := by
  unfold get_changeset_revisions changesetHeader
  have hmagic : ((CHANGES_MAGIC ++ packUint CHANGES_VERSION ++ packUint r ++
      packUint r' ++ packUint 0) ++ blobs).take CHANGES_MAGIC.length = CHANGES_MAGIC := by
    simp [List.append_assoc, List.take_append_of_le_length]
  have hdrop : ((CHANGES_MAGIC ++ packUint CHANGES_VERSION ++ packUint r ++
      packUint r' ++ packUint 0) ++ blobs).drop CHANGES_MAGIC.length =
      packUint CHANGES_VERSION ++ (packUint r ++ (packUint r' ++ (packUint 0 ++ blobs))) := by
    simp [List.append_assoc, List.drop_append_of_le_length]
  simp only [hmagic, hdrop, ne_eq, not_true_eq_false, if_false, ite_false]
  have hne : ¬ (packUint CHANGES_VERSION ++ (packUint r ++ (packUint r' ++ (packUint 0 ++ blobs)))).isEmpty = true := by
    rw [packUint]; simp [CHANGES_VERSION]
  simp only [hne, if_false, ite_false, unpackUint_packUint]
  simp [unpackUint_packUint]

/-- The environment of `open_tables_consistent`: what the filesystem and the
concurrent writer let each attempt observe.  `openAll i rev` tells whether,
on the `i`-th attempt, the five opens
`spelling/synonym/termlist/position/postlist` at revision `rev` all
succeed; `reread i` is the revision read from `record_table` after
reopening it when the `i`-th attempt failed. -/
structure OpenEnv where
  openAll : Nat → Nat → Bool
  reread : Nat → Nat

/-- The retry loop of `ChertDatabase::open_tables_consistent`
(chert_database.cc:259-296): with `fuel` tries left and on attempt `i`, try
to open the five tables at `rev`; on success stop; on failure reopen
`record_table` and read `reread i`; if it equals `rev` throw
`DatabaseCorruptError`, otherwise retry with the new revision.  When the
tries are exhausted without success, throw `DatabaseModifiedError`. -/
def openTablesLoop (env : OpenEnv) : Nat → Nat → Nat → Except ChertError Nat
  | 0, _, _ => .error .DatabaseModifiedError
  | fuel + 1, i, rev =>
    if env.openAll i rev then .ok rev
    else
      let newrevision := env.reread i
      if newrevision = rev then .error .DatabaseCorruptError
      else openTablesLoop env fuel (i + 1) newrevision

/-- `ChertDatabase::open_tables_consistent` (chert_database.cc:224-299),
restricted to its retry loop: `tries = 100` (line 260) and the C condition
`(tries_left--) > 0` runs the body at most 100 times.  `rev` is the
revision first read from `record_table`. -/
def open_tables_consistent (env : OpenEnv) (rev : Nat) : Except ChertError Nat :=
  openTablesLoop env 100 0 rev

/-- **C1.** When an attempt of `open_tables_consistent` fails to open all of
the spelling, synonym, termlist, position and postlist tables at the
revision read from `record_table`, it reopens `record_table`: if the
reopened revision equals the one just tried it throws
`DatabaseCorruptError`, otherwise it retries with the new revision; and
when every one of the 100 budgeted attempts fails with a fresh revision
each time, it throws `DatabaseModifiedError`. -/
theorem open_tables_consistent_spec (env : OpenEnv) :
    (∀ fuel i rev, env.openAll i rev = false → env.reread i = rev →
      openTablesLoop env (fuel + 1) i rev = .error .DatabaseCorruptError) ∧
    (∀ fuel i rev, env.openAll i rev = false → env.reread i ≠ rev →
      openTablesLoop env (fuel + 1) i rev = openTablesLoop env fuel (i + 1) (env.reread i)) ∧
    (∀ fuel i rev, env.openAll i rev = true →
      openTablesLoop env (fuel + 1) i rev = .ok rev) ∧
    (∀ rev, (∀ i r, env.openAll i r = false) →
      (env.reread 0 ≠ rev ∧ ∀ i, env.reread (i + 1) ≠ env.reread i) →
      open_tables_consistent env rev = .error .DatabaseModifiedError) := by
  refine ⟨?_, ?_, ?_, ?_⟩
  · intro fuel i rev hopen hre
    simp [openTablesLoop, hopen, hre]
  · intro fuel i rev hopen hre
    simp [openTablesLoop, hopen, hre]
  · intro fuel i rev hopen
    simp [openTablesLoop, hopen]
  · intro rev hfail hfresh
    have key : ∀ fuel i rev, env.reread i ≠ rev →
        (∀ j, env.reread (j + 1) ≠ env.reread j) →
        openTablesLoop env fuel i rev = .error .DatabaseModifiedError := by
      intro fuel
      induction fuel with
      | zero => intro i rev _ _; rfl
      | succ fuel ih =>
        intro i rev hne hstep
        simp only [openTablesLoop, hfail i rev, if_false, ite_false, Bool.false_eq_true]
        simp only [hne, if_false, ite_false]
        exact ih (i + 1) (env.reread i) (hstep i) hstep
    exact key 100 0 rev hfresh.1 hfresh.2

/-- Witness for C1 at a concrete environment: opens always fail and the
record revision strictly increases on each reread, so the loop exhausts
its budget and reports `DatabaseModifiedError`; a single corrupt-case and
success-case instance are also evaluated. -/
theorem open_tables_consistent_spec_witness :
    (open_tables_consistent ⟨fun _ _ => false, fun i => i + 1⟩ 0 =
      .error .DatabaseModifiedError) ∧
    (openTablesLoop ⟨fun _ _ => false, fun _ => 7⟩ 1 0 7 =
      .error .DatabaseCorruptError) ∧
    (openTablesLoop ⟨fun _ _ => true, fun _ => 7⟩ 1 0 5 = .ok 5) := by
  refine ⟨?_, ?_, ?_⟩
  · exact (open_tables_consistent_spec ⟨fun _ _ => false, fun i => i + 1⟩).2.2.2 0
      (fun _ _ => rfl) ⟨by decide, fun i => by simp⟩
  · exact (open_tables_consistent_spec ⟨fun _ _ => false, fun _ => 7⟩).1 0 0 7 rfl rfl
  · exact (open_tables_consistent_spec ⟨fun _ _ => true, fun _ => 7⟩).2.2.1 0 0 5 rfl

/-- The six chert tables. -/
inductive TableId
  | postlist | position | termlist | synonym | spelling | record
  deriving DecidableEq, Repr

/-- One throwing-capable step of the `try` block of
`ChertDatabase::set_revision_number` (chert_database.cc:431-470): the
header write to the changeset fd, one table's changed-block append, or one
table's commit (the record commit carries the changeset tail it is asked
to append). -/
inductive CommitStep
  | writeHeader (bytes : List Nat)
  | writeChangedBlocks (t : TableId)
  | commit (t : TableId) (rev : Nat) (tail : List Nat)
  deriving DecidableEq, Repr

/-- The steps executed inside the `try` block of `set_revision_number`, in
source order (chert_database.cc:431-469).  When a changeset file is open
(`withChangeset`): the header write, then the changed-block appends in the
order termlist, synonym, spelling, record, position, postlist, then the
commits of postlist, position, termlist, synonym, spelling at the new
revision, and finally the record commit carrying the tail
`'\0' ++ pack_uint(new_revision)`.  Without a changeset file only the six
commits run, and the record tail stays empty. -/
def commitSteps (withChangeset : Bool) (oldRevision newRevision : Nat) : List CommitStep :=
  (if withChangeset then
    [.writeHeader (changesetHeader oldRevision newRevision),
     .writeChangedBlocks .termlist,
     .writeChangedBlocks .synonym,
     .writeChangedBlocks .spelling,
     .writeChangedBlocks .record,
     .writeChangedBlocks .position,
     .writeChangedBlocks .postlist]
  else []) ++
  [.commit .postlist newRevision [],
   .commit .position newRevision [],
   .commit .termlist newRevision [],
   .commit .synonym newRevision [],
   .commit .spelling newRevision [],
   .commit .record newRevision (if withChangeset then 0 :: packUint newRevision else [])]

/-- Run the steps in order against an oracle that says which steps throw
(and with what error); stop at the first throwing step, returning the
error and the trace of steps completed before it. -/
def runCommitSteps (oracle : CommitStep → Option ChertError) :
    List CommitStep → Except ChertError Unit × List CommitStep
  | [] => (.ok (), [])
  | s :: rest =>
    match oracle s with
    | some e => (.error e, [])
    | none =>
      let (r, tr) := runCommitSteps oracle rest
      (r, s :: tr)

/-- The configuration of `ChertDatabase::set_revision_number`
(chert_database.cc:396-479): the `max_changesets` setting, the revision
the database currently holds, and the new revision being committed. -/
structure CommitEnv where
  maxChangesets : Nat
  oldRevision : Nat
  newRevision : Nat

/-- A changeset file is created (chert_database.cc:413-428) iff
`max_changesets > 0` and the old revision is non-zero ("don't generate a
changeset for the first revision"). -/
def changesetCreated (env : CommitEnv) : Bool :=
  decide (0 < env.maxChangesets) && decide (env.oldRevision ≠ 0)

/-- `ChertDatabase::set_revision_number` (chert_database.cc:396-479) after
`flush_db`: run the try-block steps; on success the changeset file (if
created) remains on disk; on any throw the catch block unlinks the
changeset file and rethrows the same exception.  Returns the outcome,
whether the changeset file exists on disk afterwards, and the trace of
completed steps. -/
def set_revision_number (env : CommitEnv) (oracle : CommitStep → Option ChertError) :
    Except ChertError Unit × Bool × List CommitStep :=
  let created := changesetCreated env
  let (r, tr) := runCommitSteps oracle (commitSteps created env.oldRevision env.newRevision)
  match r with
  | .ok () => (.ok (), created, tr)
  | .error e => (.error e, false, tr)

/-- The first error produced by the oracle along a step list, defined
independently of `runCommitSteps`. -/
def firstOracleError (oracle : CommitStep → Option ChertError) :
    List CommitStep → Option ChertError
  | [] => none
  | s :: rest =>
    match oracle s with
    | some e => some e
    | none => firstOracleError oracle rest

theorem runCommitSteps_error (oracle : CommitStep → Option ChertError) :
    ∀ steps e, firstOracleError oracle steps = some e →
      (runCommitSteps oracle steps).1 = .error e := by
  intro steps
  induction steps with
  | nil => intro e h; simp [firstOracleError] at h
  | cons s rest ih =>
    intro e h
    simp only [firstOracleError] at h
    simp only [runCommitSteps]
    cases ho : oracle s with
    | some e' =>
      rw [ho] at h
      simp at h
      simp [ho, h]
    | none =>
      rw [ho] at h
      have := ih e h
      simp only [ho]
      cases hr : runCommitSteps oracle rest with
      | mk r tr => rw [hr] at this; simpa [hr]

theorem runCommitSteps_ok (oracle : CommitStep → Option ChertError) :
    ∀ steps, firstOracleError oracle steps = none →
      runCommitSteps oracle steps = (.ok (), steps) := by
  intro steps
  induction steps with
  | nil => intro _; rfl
  | cons s rest ih =>
    intro h
    simp only [firstOracleError] at h
    cases ho : oracle s with
    | some e' => rw [ho] at h; simp at h
    | none =>
      rw [ho] at h
      simp [runCommitSteps, ho, ih h]

/-- **C2.** For every invocation of `set_revision_number` in which a
changeset file was created (`max_changesets > 0` and the old revision
non-zero), if any step of changeset writing or table committing throws,
the partial changeset file is deleted from disk and the same exception is
rethrown; and when nothing throws, the changeset file persists. -/
theorem set_revision_number_cleanup (env : CommitEnv)
    (oracle : CommitStep → Option ChertError)
    (hmax : 0 < env.maxChangesets) (hold : env.oldRevision ≠ 0) :
    (∀ e, firstOracleError oracle (commitSteps true env.oldRevision env.newRevision) = some e →
      (set_revision_number env oracle).1 = .error e ∧
      (set_revision_number env oracle).2.1 = false) ∧
    (firstOracleError oracle (commitSteps true env.oldRevision env.newRevision) = none →
      (set_revision_number env oracle).1 = .ok () ∧
      (set_revision_number env oracle).2.1 = true) := by
  have hc : changesetCreated env = true := by
    simp [changesetCreated, hmax, hold]
  constructor
  · intro e he
    have h1 := runCommitSteps_error oracle _ _ he
    simp only [set_revision_number, hc]
    cases hr : runCommitSteps oracle (commitSteps true env.oldRevision env.newRevision) with
    | mk r tr =>
      rw [hr] at h1
      simp at h1
      simp [h1]
  · intro he
    have h1 := runCommitSteps_ok oracle _ he
    simp [set_revision_number, hc, h1]

/-- Witness for C2: with `max_changesets = 1` and old revision 3, an oracle
that makes the record commit throw `DatabaseError` yields that same error
with the changeset file deleted, and the all-succeeding oracle leaves the
file in place. -/
theorem set_revision_number_cleanup_witness :
    ((set_revision_number ⟨1, 3, 4⟩
        (fun s => match s with
          | .commit .record _ _ => some .DatabaseError
          | _ => none)).1 = .error .DatabaseError ∧
      (set_revision_number ⟨1, 3, 4⟩
        (fun s => match s with
          | .commit .record _ _ => some .DatabaseError
          | _ => none)).2.1 = false) ∧
    ((set_revision_number ⟨1, 3, 4⟩ (fun _ => none)).1 = .ok () ∧
      (set_revision_number ⟨1, 3, 4⟩ (fun _ => none)).2.1 = true) := by
  constructor
  · exact (set_revision_number_cleanup ⟨1, 3, 4⟩ _ (by decide) (by decide)).1
      .DatabaseError (by decide)
  · exact (set_revision_number_cleanup ⟨1, 3, 4⟩ _ (by decide) (by decide)).2 (by decide)

/-- **C3.** During commit with a changeset file open, `set_revision_number`
appends each table's changed-block set in the exact order termlist,
synonym, spelling, record, position, postlist, then commits the five
non-record tables at the new revision, and commits `record_table` last,
passing it a tail of a zero byte followed by the packed new revision; the
trace of a throw-free run is exactly that sequence, headed by the
changeset header write. -/
theorem set_revision_number_order (env : CommitEnv)
    (oracle : CommitStep → Option ChertError)
    (hmax : 0 < env.maxChangesets) (hold : env.oldRevision ≠ 0)
    (hok : firstOracleError oracle (commitSteps true env.oldRevision env.newRevision) = none) :
    (set_revision_number env oracle).2.2 =
      [.writeHeader (changesetHeader env.oldRevision env.newRevision),
       .writeChangedBlocks .termlist,
       .writeChangedBlocks .synonym,
       .writeChangedBlocks .spelling,
       .writeChangedBlocks .record,
       .writeChangedBlocks .position,
       .writeChangedBlocks .postlist,
       .commit .postlist env.newRevision [],
       .commit .position env.newRevision [],
       .commit .termlist env.newRevision [],
       .commit .synonym env.newRevision [],
       .commit .spelling env.newRevision [],
       .commit .record env.newRevision (0 :: packUint env.newRevision)] := by
  have hc : changesetCreated env = true := by
    simp [changesetCreated, hmax, hold]
  have h1 := runCommitSteps_ok oracle _ hok
  simp only [set_revision_number, hc, h1]
  simp [commitSteps]

/-- Witness for C3 at `max_changesets = 1`, old revision 3, new revision 4
with a throw-free oracle. -/
theorem set_revision_number_order_witness :
    (set_revision_number ⟨1, 3, 4⟩ (fun _ => none)).2.2 =
      [.writeHeader (changesetHeader 3 4),
       .writeChangedBlocks .termlist,
       .writeChangedBlocks .synonym,
       .writeChangedBlocks .spelling,
       .writeChangedBlocks .record,
       .writeChangedBlocks .position,
       .writeChangedBlocks .postlist,
       .commit .postlist 4 [],
       .commit .position 4 [],
       .commit .termlist 4 [],
       .commit .synonym 4 [],
       .commit .spelling 4 [],
       .commit .record 4 (0 :: packUint 4)] :=
  set_revision_number_order ⟨1, 3, 4⟩ (fun _ => none) (by decide) (by decide) (by decide)

/-- The in-memory posting-modification buffer
`mod_plists[term][did] = (op, wdf)` of `ChertWritableDatabase`
(chert_database.h collaborator, used throughout chert_database.cc),
flattened to an association list keyed by (term, docid). -/
abbrev ModPlists := List ((String × Nat) × (Char × Nat))

/-- Lookup of `mod_plists[tname].find(did)`. -/
def mpLookup : ModPlists → String → Nat → Option (Char × Nat)
  | [], _, _ => none
  | e :: rest, t, d =>
    if e.1.1 = t ∧ e.1.2 = d then some e.2 else mpLookup rest t d

/-- Assignment through a found iterator (`k->second = v`). -/
def mpAssign : ModPlists → String → Nat → (Char × Nat) → ModPlists
  | [], _, _, _ => []
  | e :: rest, t, d, v =>
    if e.1.1 = t ∧ e.1.2 = d then (e.1, v) :: rest else e :: mpAssign rest t d v

/-- `std::map::insert` semantics: add the entry only when the key is absent. -/
def mpInsert (m : ModPlists) (t : String) (d : Nat) (v : Char × Nat) : ModPlists :=
  match mpLookup m t d with
  | some _ => m
  | none => m ++ [((t, d), v)]

/-- The `mod_plists` update of `ChertWritableDatabase::add_document_`
(chert_database.cc:1132-1139): insert `(A, wdf)` for `did` (asserted not
already present; `std::map::insert` leaves an existing entry unchanged). -/
def modPlistsAdd (m : ModPlists) (t : String) (d : Nat) (wdf : Nat) : ModPlists :=
  mpInsert m t d ('A', wdf)

/-- The `mod_plists` update of `ChertWritableDatabase::delete_document`
(chert_database.cc:1239-1246), also used by the delete half of
`replace_document` (chert_database.cc:1352-1360): absent key inserts
`(D, 0)`, a present entry — added or modified since the last flush — is
overwritten with `(D, 0)`. -/
def modPlistsDelete (m : ModPlists) (t : String) (d : Nat) : ModPlists :=
  match mpLookup m t d with
  | some _ => mpAssign m t d ('D', 0)
  | none => m ++ [((t, d), ('D', 0))]

/-- The `mod_plists` update of the add half of
`ChertWritableDatabase::replace_document` (chert_database.cc:1395-1403):
a present entry (asserted to be `D`) becomes `(M, wdf)`; an absent key
inserts `(A, wdf)`. -/
def modPlistsReplaceAdd (m : ModPlists) (t : String) (d : Nat) (wdf : Nat) : ModPlists :=
  match mpLookup m t d with
  | some _ => mpAssign m t d ('M', wdf)
  | none => m ++ [((t, d), ('A', wdf))]

theorem mpLookup_mpAssign (m : ModPlists) (t : String) (d : Nat) (v : Char × Nat) :
    (mpLookup m t d).isSome → mpLookup (mpAssign m t d v) t d = some v := by
  induction m with
  | nil => intro h; simp [mpLookup] at h
  | cons e rest ih =>
    intro h
    by_cases he : e.1.1 = t ∧ e.1.2 = d
    · simp [mpAssign, mpLookup, he]
    · simp only [mpLookup, he, if_false, ite_false] at h
      simp [mpAssign, mpLookup, he, ih h]

theorem mpLookup_append_single (m : ModPlists) (t : String) (d : Nat) (v : Char × Nat) :
    mpLookup m t d = none → mpLookup (m ++ [((t, d), v)]) t d = some v := by
  induction m with
  | nil => intro _; simp [mpLookup]
  | cons e rest ih =>
    intro h
    by_cases he : e.1.1 = t ∧ e.1.2 = d
    · simp [mpLookup, he] at h
    · simp only [mpLookup, he, if_false, ite_false] at h
      simp [mpLookup, he, ih h]

theorem mpLookup_modPlistsDelete (m : ModPlists) (t : String) (d : Nat) :
    mpLookup (modPlistsDelete m t d) t d = some ('D', 0) := by
  unfold modPlistsDelete
  cases h : mpLookup m t d with
  | some v => exact mpLookup_mpAssign m t d _ (by simp [h])
  | none => exact mpLookup_append_single m t d _ h

/-- **C6.** Write-buffer transition discipline of `mod_plists`: a delete
writes `(D, 0)` over any prior entry (in particular a prior `A` or `M`);
an add on top of a `D` entry during replace becomes `(M, new wdf)`; hence
deleting and then re-adding the same docid within one flush window leaves
the single entry `(M, new wdf)`; and the plain add of a fresh docid
records `(A, wdf)`. -/
theorem mod_plists_transitions (m : ModPlists) (t : String) (d : Nat) (w : Nat) :
    (mpLookup (modPlistsDelete m t d) t d = some ('D', 0)) ∧
    ((mpLookup m t d).isSome →
      mpLookup (modPlistsReplaceAdd m t d w) t d = some ('M', w)) ∧
    (mpLookup (modPlistsReplaceAdd (modPlistsDelete m t d) t d w) t d = some ('M', w)) ∧
    (mpLookup m t d = none → mpLookup (modPlistsAdd m t d w) t d = some ('A', w)) := by
  refine ⟨mpLookup_modPlistsDelete m t d, ?_, ?_, ?_⟩
  · intro h
    unfold modPlistsReplaceAdd
    cases hl : mpLookup m t d with
    | some v => exact mpLookup_mpAssign m t d _ (by simp [hl])
    | none => rw [hl] at h; simp at h
  · have hd := mpLookup_modPlistsDelete m t d
    unfold modPlistsReplaceAdd
    rw [hd]
    exact mpLookup_mpAssign _ t d _ (by simp [hd])
  · intro h
    unfold modPlistsAdd mpInsert
    rw [h]
    exact mpLookup_append_single m t d _ h

/-- Witness for C6 on a concrete buffer: term "a", docid 3, starting from a
buffer holding `(A, 2)` for it. -/
theorem mod_plists_transitions_witness :
    (mpLookup (modPlistsDelete [(("a", 3), ('A', 2))] "a" 3) "a" 3 = some ('D', 0)) ∧
    (mpLookup (modPlistsReplaceAdd [(("a", 3), ('D', 0))] "a" 3 5) "a" 3 = some ('M', 5)) ∧
    (mpLookup (modPlistsReplaceAdd (modPlistsDelete [(("a", 3), ('A', 2))] "a" 3) "a" 3 5) "a" 3
      = some ('M', 5)) ∧
    (mpLookup (modPlistsAdd [] "a" 3 5) "a" 3 = some ('A', 5)) := by
  have h1 := (mod_plists_transitions [(("a", 3), ('A', 2))] "a" 3 5).1
  have h2 := (mod_plists_transitions [(("a", 3), ('D', 0))] "a" 3 5).2.1 (by
    show (mpLookup [(("a", 3), ('D', 0))] "a" 3).isSome
    simp [mpLookup])
  have h3 := (mod_plists_transitions [(("a", 3), ('A', 2))] "a" 3 5).2.2.1
  have h4 := (mod_plists_transitions ([] : ModPlists) "a" 3 5).2.2.2 (by rfl)
  exact ⟨h1, h2, h3, h4⟩

/-- `MAX_SAFE_TERM_LENGTH` (chert_database.cc:81): the B-tree key limit of
252 bytes minus the two trailing zero bytes, the length byte and up to 4
docid bytes of the postlist key encoding. -/
def MAX_SAFE_TERM_LENGTH : Nat := 245

/-- The term-length guard of `ChertWritableDatabase::add_document_`
(chert_database.cc:1119-1121) and of `replace_document`
(chert_database.cc:1376-1378): throw `InvalidArgumentError` exactly when
the term's byte length exceeds `MAX_SAFE_TERM_LENGTH`, with no adjustment
for zero bytes in the term. -/
def termLengthGuard (tname : List Nat) : Except ChertError Unit :=
  if MAX_SAFE_TERM_LENGTH < tname.length then .error .InvalidArgumentError
  else .ok ()

/-- The documented safe limit, from the source comment
(chert_database.cc:75-80) and the spec: 245 bytes, "reduced by one for
each zero byte the term contains". -/
def maxSafeLengthFor (tname : List Nat) : Nat :=
  MAX_SAFE_TERM_LENGTH - tname.count 0

/-- A 245-byte term containing one zero byte: 244 bytes `'a'` and a final
zero byte. -/
def overlongZeroTerm : List Nat := List.replicate 244 97 ++ [0]

/-- **C7** (failing input). The guard the code actually runs contradicts
the documented limit: `overlongZeroTerm` has 245 bytes but, holding one
zero byte, a documented safe limit of only 244, yet the write-path guard
accepts it instead of failing with `InvalidArgumentError`; the guard only
compares the raw length against 245. -/
theorem term_length_guard_gap :
    overlongZeroTerm.length = 245 ∧
    maxSafeLengthFor overlongZeroTerm = 244 ∧
    maxSafeLengthFor overlongZeroTerm < overlongZeroTerm.length ∧
    termLengthGuard overlongZeroTerm = .ok () := by
  have hlen : overlongZeroTerm.length = 245 := by
    unfold overlongZeroTerm
    rw [List.length_append, List.length_replicate]
    rfl
  have hcount : overlongZeroTerm.count 0 = 1 := by
    unfold overlongZeroTerm
    rw [List.count_append, List.count_replicate]
    norm_num
  refine ⟨hlen, ?_, ?_, ?_⟩
  · simp [maxSafeLengthFor, hcount, MAX_SAFE_TERM_LENGTH]
  · simp [maxSafeLengthFor, hcount, MAX_SAFE_TERM_LENGTH, hlen]
  · simp [termLengthGuard, hlen, MAX_SAFE_TERM_LENGTH]

/-- The deletion sentinel `static_cast<Xapian::termcount>(-1)` stored in
`doclens` (chert_database.cc:1256): `Xapian::termcount` is a 32-bit
unsigned integer, so the cast yields `2^32 - 1`. -/
def DOCLEN_DELETED : Nat := 2 ^ 32 - 1

/-- Per-term frequency and collection-frequency deltas
`freq_deltas[term] = (termfreq_delta, collfreq_delta)` (signed). -/
abbrev FreqDeltas := List (String × (Int × Int))

/-- The `freq_deltas` update of the delete paths
(chert_database.cc:1222-1229, 1335-1342): absent term inserts
`(-1, -wdf)`, a present entry is decremented by `(1, wdf)`. -/
def fdDelete : FreqDeltas → String → Nat → FreqDeltas
  | [], t, w => [(t, (-1, -(w : Int)))]
  | e :: rest, t, w =>
    if e.1 = t then (e.1, (e.2.1 - 1, e.2.2 - (w : Int))) :: rest
    else e :: fdDelete rest t w

/-- Simple association-list update for `doclens[did] = v`. -/
def dlSet : List (Nat × Nat) → Nat → Nat → List (Nat × Nat)
  | [], d, v => [(d, v)]
  | e :: rest, d, v =>
    if e.1 = d then (e.1, v) :: rest else e :: dlSet rest d v

/-- The in-memory state of a `ChertWritableDatabase` at the granularity the
claims need: whether the termlist table is present, the buffered contents
of the record and termlist tables together with their last-committed
snapshots (the tables' `cancel()` reverts to those), the three write-buffer
maps, the change counter and the flush threshold. -/
structure WState where
  termlistOpen : Bool
  records : List Nat
  committedRecords : List Nat
  termlists : List (Nat × List (String × Nat))
  committedTermlists : List (Nat × List (String × Nat))
  modPlists : ModPlists
  doclens : List (Nat × Nat)
  freqDeltas : FreqDeltas
  changeCount : Nat
  flushThreshold : Nat
  deriving DecidableEq

/-- `ChertWritableDatabase::cancel` (chert_database.cc:1589-1599) together
with `ChertDatabase::cancel` (chert_database.cc:753-764): each table drops
its uncommitted changes and the three write-buffer maps and the change
counter are cleared (the stats re-read is outside this model). -/
def wCancel (st : WState) : WState :=
  { st with records := st.committedRecords,
            termlists := st.committedTermlists,
            modPlists := [], doclens := [], freqDeltas := [], changeCount := 0 }

/-- `ChertWritableDatabase::flush_postlist_changes`
(chert_database.cc:1064-1074) as seen by the write buffer: the three maps
are merged into the postlist table (table internals outside this model)
and cleared, and the change counter resets. -/
def flush_postlist_changes (st : WState) : WState :=
  { st with modPlists := [], doclens := [], freqDeltas := [], changeCount := 0 }

/-- `ChertWritableDatabase::delete_document` (chert_database.cc:1185-1270).
If the termlist table is absent, throw `FeatureUnavailableError` at once,
with nothing changed.  Otherwise delete the record first
(`record_table.delete_record` throws `DocNotFoundError` for a missing
docid, propagated with the state still consistent); then, inside the
try block, read the document's termlist (a missing termlist throws
`DocNotFoundError`, which the catch-all turns into `cancel()` plus
rethrow), decrement `freq_deltas` and write `(D, 0)` into `mod_plists` for
each of its terms, delete the termlist entry, mark `doclens[did]` with the
deletion sentinel, and finally bump the change counter, flushing at the
threshold.  (Value, position and stats bookkeeping are external
collaborators.) -/
def delete_document (st : WState) (did : Nat) : Except ChertError Unit × WState :=
  if ¬ st.termlistOpen then (.error .FeatureUnavailableError, st)
  else if ¬ st.records.contains did then (.error .DocNotFoundError, st)
  else
    let st1 := { st with records := st.records.erase did }
    match st1.termlists.find? (fun e => e.1 = did) with
    | none => (.error .DocNotFoundError, wCancel st1)
    | some e =>
      let st2 := e.2.foldl (fun s tw =>
        { s with freqDeltas := fdDelete s.freqDeltas tw.1 tw.2,
                 modPlists := modPlistsDelete s.modPlists tw.1 did }) st1
      let st3 := { st2 with termlists := st2.termlists.filter (fun e => e.1 ≠ did),
                            doclens := dlSet st2.doclens did DOCLEN_DELETED,
                            changeCount := st2.changeCount + 1 }
      if st3.flushThreshold ≤ st3.changeCount then (.ok (), flush_postlist_changes st3)
      else (.ok (), st3)

/-- **C8.** For every docid, `delete_document` on a writable database whose
termlist table is absent throws `FeatureUnavailableError`, and the state it
returns is exactly the state it was given: the record is not deleted and
the write buffer untouched. -/
theorem delete_document_no_termlist (st : WState) (did : Nat)
    (h : st.termlistOpen = false) :
    delete_document st did = (.error .FeatureUnavailableError, st) := by
  simp [delete_document, h]

/-- Witness for C8 at a concrete populated state. -/
theorem delete_document_no_termlist_witness :
    delete_document
      { termlistOpen := false, records := [1, 2], committedRecords := [1, 2],
        termlists := [], committedTermlists := [],
        modPlists := [(("a", 1), ('A', 2))], doclens := [(1, 2)],
        freqDeltas := [("a", (1, 2))], changeCount := 1, flushThreshold := 10000 } 1
      = (.error .FeatureUnavailableError,
         { termlistOpen := false, records := [1, 2], committedRecords := [1, 2],
           termlists := [], committedTermlists := [],
           modPlists := [(("a", 1), ('A', 2))], doclens := [(1, 2)],
           freqDeltas := [("a", (1, 2))], changeCount := 1, flushThreshold := 10000 }) :=
  delete_document_no_termlist _ 1 rfl

/-- Association-list lookup for `doclens.find(did)`. -/
def dlLookup : List (Nat × Nat) → Nat → Option Nat
  | [], _ => none
  | e :: rest, d => if e.1 = d then some e.2 else dlLookup rest d

/-- `ChertWritableDatabase::get_doclength` (chert_database.cc:1463-1476):
look `did` up in the in-memory `doclens` buffer; a buffered
`termcount(-1)` sentinel throws `DocNotFoundError`, any other buffered
value is returned as is, and only an absent entry falls back to the
committed value read through `ChertDatabase::get_doclength` (passed here
as `base`, its postlist-table read being an external collaborator). -/
def wdb_get_doclength (doclens : List (Nat × Nat)) (did : Nat)
    (base : Except ChertError Nat) : Except ChertError Nat :=
  match dlLookup doclens did with
  | some doclen =>
    if doclen = DOCLEN_DELETED then .error .DocNotFoundError
    else .ok doclen
  | none => base

/-- **C10.** `get_doclength` on the writable database consults the buffer
first: a buffered deletion sentinel throws `DocNotFoundError`; any other
buffered value is returned without consulting the committed tables (the
result does not depend on `base`); and only an absent entry falls back to
the committed value. -/
theorem wdb_get_doclength_buffered (doclens : List (Nat × Nat)) (did : Nat)
    (base : Except ChertError Nat) :
    (dlLookup doclens did = some DOCLEN_DELETED →
      wdb_get_doclength doclens did base = .error .DocNotFoundError) ∧
    (∀ v, dlLookup doclens did = some v → v ≠ DOCLEN_DELETED →
      ∀ base', wdb_get_doclength doclens did base' = .ok v) ∧
    (dlLookup doclens did = none →
      wdb_get_doclength doclens did base = base) := by
  refine ⟨?_, ?_, ?_⟩
  · intro h; simp [wdb_get_doclength, h]
  · intro v h hv base'; simp [wdb_get_doclength, h, hv]
  · intro h; simp [wdb_get_doclength, h]

/-- Witness for C10: a buffer holding the sentinel for docid 1, the value 7
for docid 2, and nothing for docid 3; the base lookup returns 9. -/
theorem wdb_get_doclength_buffered_witness :
    (wdb_get_doclength [(1, DOCLEN_DELETED), (2, 7)] 1 (.ok 9) =
      .error .DocNotFoundError) ∧
    (wdb_get_doclength [(1, DOCLEN_DELETED), (2, 7)] 2 (.ok 9) = .ok 7) ∧
    (wdb_get_doclength [(1, DOCLEN_DELETED), (2, 7)] 3 (.ok 9) = .ok 9) := by
  refine ⟨?_, ?_, ?_⟩
  · exact (wdb_get_doclength_buffered [(1, DOCLEN_DELETED), (2, 7)] 1 (.ok 9)).1
      (by simp [dlLookup])
  · exact (wdb_get_doclength_buffered [(1, DOCLEN_DELETED), (2, 7)] 2 (.ok 9)).2.1 7
      (by simp [dlLookup, DOCLEN_DELETED]) (by decide) (.ok 9)
  · exact (wdb_get_doclength_buffered [(1, DOCLEN_DELETED), (2, 7)] 3 (.ok 9)).2.2
      (by simp [dlLookup, DOCLEN_DELETED])

/-- Value of a byte from its bits, least significant first
(`BitWriter`/`BitReader` byte packing collaborator from `bitstream.h`). -/
def byteOfBits : List Bool → Nat
  | [] => 0
  | b :: bs => (if b then 1 else 0) + 2 * byteOfBits bs

/-- The `k` low-order bits of a byte, least significant first. -/
def bitsOfByteAux : Nat → Nat → List Bool
  | 0, _ => []
  | k + 1, n => decide (n % 2 = 1) :: bitsOfByteAux k (n / 2)

/-- All eight bits of a byte, least significant first. -/
def bitsOfByte (n : Nat) : List Bool := bitsOfByteAux 8 n

/-- `BitWriter::freeze` byte packing: group the bit buffer into bytes of
eight, padding the last byte with zero bits. -/
def bitsToBytes (bs : List Bool) : List Nat :=
  if _hbs : bs = [] then []
  else byteOfBits (bs.take 8 ++ List.replicate (8 - (bs.take 8).length) false) ::
    bitsToBytes (bs.drop 8)
  termination_by bs.length
  decreasing_by
    simp only [List.length_drop]
    have hz : bs.length ≠ 0 := fun hh => _hbs (List.eq_nil_of_length_eq_zero hh)
    omega

/-- `BitReader` bit extraction: the bit stream of a byte sequence. -/
def bytesToBits : List Nat → List Bool
  | [] => []
  | b :: rest => bitsOfByte b ++ bytesToBits rest

theorem bitsOfByteAux_byteOfBits (l : List Bool) :
    bitsOfByteAux l.length (byteOfBits l) = l := by
  induction l with
  | nil => rfl
  | cons b bs ih =>
    simp only [List.length_cons, bitsOfByteAux, byteOfBits]
    have hdiv : ((if b then 1 else 0) + 2 * byteOfBits bs) / 2 = byteOfBits bs := by
      cases b
      · simp
      · simp
        omega
    have hmod : decide (((if b then 1 else 0) + 2 * byteOfBits bs) % 2 = 1) = b := by
      cases b
      · simp
      · simp
    rw [hdiv, hmod, ih]

theorem bitsToBytes_ne_nil (bs : List Bool) (h : bs ≠ []) : bitsToBytes bs ≠ [] := by
  rw [bitsToBytes]
  simp [h]

theorem bytesToBits_bitsToBytes :
    ∀ n (bs : List Bool), bs.length ≤ n →
      ∃ k, bytesToBits (bitsToBytes bs) = bs ++ List.replicate k false := by
  intro n
  induction n with
  | zero =>
    intro bs h
    have hb : bs = [] := List.eq_nil_of_length_eq_zero (by omega)
    subst hb
    exact ⟨0, by rw [bitsToBytes]; simp [bytesToBits]⟩
  | succ n ih =>
    intro bs h
    by_cases hb : bs = []
    · subst hb
      exact ⟨0, by rw [bitsToBytes]; simp [bytesToBits]⟩
    · rw [bitsToBytes]
      simp only [hb, dite_false]
      have hlen8 : (bs.take 8 ++ List.replicate (8 - (bs.take 8).length) false).length = 8 := by
        simp only [List.length_append, List.length_replicate, List.length_take]
        omega
      have hbyte : bitsOfByte (byteOfBits
          (bs.take 8 ++ List.replicate (8 - (bs.take 8).length) false)) =
          bs.take 8 ++ List.replicate (8 - (bs.take 8).length) false := by
        have := bitsOfByteAux_byteOfBits
          (bs.take 8 ++ List.replicate (8 - (bs.take 8).length) false)
        rwa [hlen8] at this
      have hdlen : (bs.drop 8).length ≤ n := by
        simp only [List.length_drop]
        have : bs.length ≠ 0 := fun hh => hb (List.eq_nil_of_length_eq_zero hh)
        omega
      obtain ⟨k, hk⟩ := ih (bs.drop 8) hdlen
      simp only [bytesToBits, hbyte, hk]
      by_cases hge : 8 ≤ bs.length
      · have htk : (bs.take 8).length = 8 := by simp [List.length_take]; omega
        refine ⟨k, ?_⟩
        rw [htk]
        simp only [Nat.sub_self, List.replicate_zero, List.append_nil]
        rw [← List.append_assoc, List.take_append_drop]
      · have hdrop : bs.drop 8 = [] := List.drop_eq_nil_of_le (by omega)
        have htake : bs.take 8 = bs := List.take_of_length_le (by omega)
        refine ⟨8 - (bs.take 8).length + k, ?_⟩
        rw [hdrop, htake, List.replicate_add, List.nil_append, List.append_assoc]

/-- The interpolative bit codec of `bitstream.h`/`bitstream.cc`, which the
spec treats as an opaque collaborator: `encode v outof` appends the bits
for a value known to lie in `[0, outof]`, `decode outof` reads one back
from a bit stream, `encodeInterp first last mid` is
`encode_interpolative` on the interior elements between the boundary
values and `decodeInterp first last count` is `decode_interpolative`
recovering `count` interior elements.  Its correctness contract appears as
hypotheses of the round-trip theorem. -/
structure BitCodec where
  encode : Nat → Nat → List Bool
  decode : Nat → List Bool → Option (Nat × List Bool)
  encodeInterp : Nat → Nat → List Nat → List Bool
  decodeInterp : Nat → Nat → Nat → List Bool → Option (List Nat)

/-- The tag value stored by `ChertPositionListTable::set_positionlist`
(chert_positionlist.cc:36-65): pack the final position; a single-entry
list stores just that; otherwise append the frozen bit stream of
`encode(first, last)`, `encode(size - 2, last - first)` and the
interpolative coding of the interior elements. -/
def set_positionlist_value (c : BitCodec) (poscopy : List Nat) : List Nat :=
  if poscopy = [] then []
  else if poscopy.length = 1 then packUint (poscopy.getLastD 0)
  else packUint (poscopy.getLastD 0) ++ bitsToBytes
    (c.encode (poscopy.headD 0) (poscopy.getLastD 0) ++
      c.encode (poscopy.length - 2) (poscopy.getLastD 0 - poscopy.headD 0) ++
      c.encodeInterp (poscopy.headD 0) (poscopy.getLastD 0) poscopy.tail.dropLast)

/-- `ChertPositionList::read_data` (chert_positionlist.cc:100-140) applied
to the stored tag for a (docid, term) key: `none` (no entry) yields
`(false, [])`; otherwise unpack the last position (bad data throws
`DatabaseCorruptError`, which also stands in for the opaque reader running
out of bits); an exhausted tag is the single-entry case; otherwise decode
`first`, the interior count and the interior elements, and assemble
`first :: mid ++ [last]`. -/
def read_data (c : BitCodec) : Option (List Nat) → Except ChertError (Bool × List Nat)
  | none => .ok (false, [])
  | some data =>
    match unpackUint data with
    | none => .error .DatabaseCorruptError
    | some (pos_last, rem) =>
      if rem = [] then .ok (true, [pos_last])
      else
        match c.decode pos_last (bytesToBits rem) with
        | none => .error .DatabaseCorruptError
        | some (pos_first, bits2) =>
          match c.decode (pos_last - pos_first) bits2 with
          | none => .error .DatabaseCorruptError
          | some (k, bits3) =>
            match c.decodeInterp pos_first pos_last (k + 2 - 2) bits3 with
            | none => .error .DatabaseCorruptError
            | some mid => .ok (true, pos_first :: mid ++ [pos_last])

/-- `ChertPositionListTable::positionlist_count`
(chert_positionlist.cc:67-96): 0 for a missing entry, 1 for the
single-entry special case, otherwise two header decodes give
`size - 2` and the count is that plus 2. -/
def positionlist_count (c : BitCodec) : Option (List Nat) → Except ChertError Nat
  | none => .ok 0
  | some data =>
    match unpackUint data with
    | none => .error .DatabaseCorruptError
    | some (pos_last, rem) =>
      if rem = [] then .ok 1
      else
        match c.decode pos_last (bytesToBits rem) with
        | none => .error .DatabaseCorruptError
        | some (pos_first, bits2) =>
          match c.decode (pos_last - pos_first) bits2 with
          | none => .error .DatabaseCorruptError
          | some (k, _) => .ok (k + 2)

theorem chain_head_lt (f l : Nat) (mid : List Nat)
    (h : List.Chain' (· < ·) (f :: mid ++ [l])) : f + mid.length < l := by
  induction mid generalizing f with
  | nil =>
    have h' : f < l ∧ List.Chain' (· < ·) [l] := List.chain'_cons.mp h
    simpa using h'.1
  | cons m rest ih =>
    have h' : f < m ∧ List.Chain' (· < ·) (m :: (rest ++ [l])) := List.chain'_cons.mp h
    have := ih m h'.2
    simp only [List.length_cons]
    omega

/-- **C9.** Against any interpolative codec meeting its contract (stated
as the three hypotheses: encoding against a positive bound emits at least
one bit; a bounded value decodes back from its own encoding; the
interpolative interior round-trips), every non-empty strictly increasing
position list stored by `set_positionlist` is returned exactly by
`read_data` — both the single-entry special case and the general case —
with `positionlist_count` giving its length, while a missing entry reads
back as `false` with count 0. -/
theorem positionlist_roundtrip (c : BitCodec)
    (Hne : ∀ v outof, 1 ≤ outof → c.encode v outof ≠ [])
    (Hdec : ∀ v outof rest, v ≤ outof →
      c.decode outof (c.encode v outof ++ rest) = some (v, rest))
    (Hinterp : ∀ f l mid pad, List.Chain' (· < ·) (f :: mid ++ [l]) →
      c.decodeInterp f l mid.length (c.encodeInterp f l mid ++ pad) = some mid) :
    (∀ p, read_data c (some (set_positionlist_value c [p])) = .ok (true, [p]) ∧
      positionlist_count c (some (set_positionlist_value c [p])) = .ok 1) ∧
    (∀ f mid l, List.Chain' (· < ·) (f :: mid ++ [l]) →
      read_data c (some (set_positionlist_value c (f :: mid ++ [l]))) =
        .ok (true, f :: mid ++ [l]) ∧
      positionlist_count c (some (set_positionlist_value c (f :: mid ++ [l]))) =
        .ok (f :: mid ++ [l]).length) ∧
    (read_data c none = .ok (false, []) ∧ positionlist_count c none = .ok 0) := by
  refine ⟨?_, ?_, ⟨rfl, rfl⟩⟩
  · intro p
    have hv : set_positionlist_value c [p] = packUint p := by
      simp [set_positionlist_value]
    have hu : unpackUint (packUint p) = some (p, []) := by
      have := unpackUint_packUint p []
      simpa using this
    rw [hv]
    constructor
    · simp [read_data, hu]
    · simp [positionlist_count, hu]
  · intro f mid l hch
    have hb := chain_head_lt f l mid hch
    have hfl : f ≤ l := by omega
    have hl1 : 1 ≤ l := by omega
    have hml : mid.length ≤ l - f := by omega
    have hv : set_positionlist_value c (f :: mid ++ [l]) =
        packUint l ++ bitsToBytes (c.encode f l ++ c.encode mid.length (l - f) ++
          c.encodeInterp f l mid) := by
      have h0 : f :: mid ++ [l] ≠ [] := by simp
      have h1 : (f :: mid ++ [l]).length ≠ 1 := by simp
      have hlast : (f :: mid ++ [l]).getLastD 0 = l := List.getLastD_concat _ _ _
      have hlen : (f :: mid ++ [l]).length - 2 = mid.length := by simp
      have hdl : (f :: mid ++ [l]).tail.dropLast = mid := by
        rw [List.cons_append, List.tail_cons, List.dropLast_concat]
      have hhd : (f :: mid ++ [l]).headD 0 = f := by rw [List.cons_append, List.headD_cons]
      rw [set_positionlist_value, if_neg h0, if_neg h1, hlast, hlen, hdl, hhd]
    obtain ⟨k, hk⟩ := bytesToBits_bitsToBytes
      (c.encode f l ++ c.encode mid.length (l - f) ++ c.encodeInterp f l mid).length
      (c.encode f l ++ c.encode mid.length (l - f) ++ c.encodeInterp f l mid) le_rfl
    have hbne : c.encode f l ++ c.encode mid.length (l - f) ++ c.encodeInterp f l mid ≠ [] := by
      intro hemp
      rcases List.append_eq_nil.mp hemp with ⟨hemp2, -⟩
      rcases List.append_eq_nil.mp hemp2 with ⟨hemp3, -⟩
      exact Hne f l hl1 hemp3
    have hrem := bitsToBytes_ne_nil _ hbne
    have hu := unpackUint_packUint l
      (bitsToBytes (c.encode f l ++ c.encode mid.length (l - f) ++ c.encodeInterp f l mid))
    have hd1 : c.decode l (bytesToBits (bitsToBytes
        (c.encode f l ++ c.encode mid.length (l - f) ++ c.encodeInterp f l mid))) =
        some (f, c.encode mid.length (l - f) ++
          (c.encodeInterp f l mid ++ List.replicate k false)) := by
      rw [hk]
      have hassoc : c.encode f l ++ c.encode mid.length (l - f) ++ c.encodeInterp f l mid ++
          List.replicate k false =
          c.encode f l ++ (c.encode mid.length (l - f) ++
            (c.encodeInterp f l mid ++ List.replicate k false)) := by
        simp [List.append_assoc]
      rw [hassoc]
      exact Hdec f l _ hfl
    have hd2 : c.decode (l - f) (c.encode mid.length (l - f) ++
        (c.encodeInterp f l mid ++ List.replicate k false)) =
        some (mid.length, c.encodeInterp f l mid ++ List.replicate k false) :=
      Hdec mid.length (l - f) _ hml
    have hd3 : c.decodeInterp f l (mid.length + 2 - 2)
        (c.encodeInterp f l mid ++ List.replicate k false) = some mid := by
      simpa using Hinterp f l mid (List.replicate k false) hch
    constructor
    · rw [hv]
      simp only [read_data, hu, if_neg hrem, hd1, hd2, hd3]
    · rw [hv]
      simp only [positionlist_count, hu, if_neg hrem, hd1, hd2]
      simp

/-- Unary bit coding of one value: `v` one-bits then a zero bit.  A concrete
codec meeting the interpolative codec's contract, used to instantiate the
round-trip theorem. -/
def unaryEnc (v : Nat) : List Bool := List.replicate v true ++ [false]

/-- Unary decoding of one value. -/
def unaryDec : List Bool → Option (Nat × List Bool)
  | [] => none
  | false :: rest => some (0, rest)
  | true :: rest =>
    match unaryDec rest with
    | none => none
    | some (v, r) => some (v + 1, r)

/-- Unary coding of a sequence of values. -/
def unaryEncList : List Nat → List Bool
  | [] => []
  | v :: vs => unaryEnc v ++ unaryEncList vs

/-- Unary decoding of a counted sequence of values. -/
def unaryDecList : Nat → List Bool → Option (List Nat × List Bool)
  | 0, bs => some ([], bs)
  | n + 1, bs =>
    match unaryDec bs with
    | none => none
    | some (v, r) =>
      match unaryDecList n r with
      | none => none
      | some (vs, r') => some (v :: vs, r')

/-- The unary instantiation of the opaque codec interface. -/
def unaryCodec : BitCodec where
  encode v _ := unaryEnc v
  decode _ bs := unaryDec bs
  encodeInterp _ _ mid := unaryEncList mid
  decodeInterp _ _ n bs := (unaryDecList n bs).map (·.1)

theorem unaryDec_enc (v : Nat) (rest : List Bool) :
    unaryDec (unaryEnc v ++ rest) = some (v, rest) := by
  induction v with
  | zero => simp [unaryEnc, unaryDec]
  | succ v ih =>
    have hshape : unaryEnc (v + 1) ++ rest = true :: (unaryEnc v ++ rest) := by
      simp [unaryEnc, List.replicate_succ]
    rw [hshape]
    simp only [unaryDec, ih]

theorem unaryDecList_encList (mid : List Nat) (pad : List Bool) :
    unaryDecList mid.length (unaryEncList mid ++ pad) = some (mid, pad) := by
  induction mid generalizing pad with
  | nil => simp [unaryEncList, unaryDecList]
  | cons v vs ih =>
    simp only [unaryEncList, List.length_cons, unaryDecList, List.append_assoc,
      unaryDec_enc]
    rw [ih pad]

/-- Witness for C9: the unary codec satisfies the contract, and the
round-trip evaluates as claimed on the single list `[5]`, the three-entry
list `[1, 3, 7]` and the missing entry. -/
theorem positionlist_roundtrip_witness :
    (read_data unaryCodec (some (set_positionlist_value unaryCodec [5])) =
        .ok (true, [5]) ∧
      positionlist_count unaryCodec (some (set_positionlist_value unaryCodec [5])) =
        .ok 1) ∧
    (read_data unaryCodec (some (set_positionlist_value unaryCodec [1, 3, 7])) =
        .ok (true, [1, 3, 7]) ∧
      positionlist_count unaryCodec (some (set_positionlist_value unaryCodec [1, 3, 7])) =
        .ok 3) ∧
    (read_data unaryCodec none = .ok (false, []) ∧
      positionlist_count unaryCodec none = .ok 0) := by
  have H := positionlist_roundtrip unaryCodec
    (fun v outof _ => by simp [unaryCodec, unaryEnc])
    (fun v outof rest _ => unaryDec_enc v rest)
    (fun f l mid pad _ => by
      show (unaryDecList mid.length (unaryEncList mid ++ pad)).map (·.1) = some mid
      rw [unaryDecList_encList]
      rfl)
  refine ⟨H.1 5, ?_, H.2.2⟩
  have hch : List.Chain' (· < ·) [1, 3, 7] :=
    List.chain'_cons.mpr ⟨by norm_num,
      List.chain'_cons.mpr ⟨by norm_num, List.chain'_singleton 7⟩⟩
  have h2 := H.2.1 1 [3] 7 hch
  simpa using h2

/-- Modelled from the spec: `MAX_DB_COPIES_PER_CONVERSATION` from
`chert_replicate_internal.h` (not under `src/`), the bound on
whole-database copies per `write_changesets_to_fd` conversation. -/
def MAX_DB_COPIES_PER_CONVERSATION : Nat := 5

/-- The messages `write_changesets_to_fd` can emit, one per framed reply
(the whole `send_whole_database` header/filename/filedata sequence is one
`fullCopy` event). -/
inductive ReplMsg
  | fullCopy (rev uuid : Nat)
  | footer (rev : Nat)
  | changeset (rev : Nat)
  | fail
  | endOfChanges
  deriving DecidableEq, Repr

/-- What the filesystem shows for a `changes<k>` file: missing, present but
unparsable (`get_changeset_revisions` throws), or parsed revisions. -/
inductive CsFile
  | absent
  | bad
  | parsed (s e : Nat)
  deriving DecidableEq, Repr

/-- The environment of `write_changesets_to_fd`: `rev n` and `uuid n` are
the revision and UUID of the snapshot visible after `n` calls to
`reopen()` (`n = 0` is the state at entry), and `cs t k` is the state of
the file `changes<k>` during loop iteration `t`. -/
structure ReplEnv where
  rev : Nat → Nat
  uuid : Nat → Nat
  cs : Nat → Nat → CsFile

/-- The live state of the `write_changesets_to_fd` loop
(chert_database.cc:569-695): iteration counter, reopen count, the open
snapshot's revision and UUID, the `need_whole_db` flag, the remaining
whole-copy budget, `start_rev_num`/`start_uuid`, `needed_rev_num`, the
messages sent so far, and the `ReplicationInfo` accumulators. -/
structure ReplState where
  t : Nat
  nReopens : Nat
  curRev : Nat
  curUuid : Nat
  needWhole : Bool
  copiesLeft : Nat
  startRev : Nat
  startUuid : Nat
  neededRev : Nat
  sent : List ReplMsg
  fullcopyCount : Nat
  changesetCount : Nat
  changed : Bool
  deriving DecidableEq, Repr

/-- One loop iteration's outcome: continue, return, or propagate a thrown
`DatabaseError`. -/
inductive ReplOutcome
  | next (st : ReplState)
  | finished (st : ReplState)
  | threw (st : ReplState) (e : ChertError)
  deriving DecidableEq, Repr

/-- The changeset-sending tail of the loop body
(chert_database.cc:661-691): look for `changes<start_rev_num>`; if absent
mark for a full copy; if present parse it, throw `DatabaseError` when its
start is not `start_rev_num` or not below its end, else send it, advance
`start_rev_num` to its end and update the info accumulators. -/
def replChangeset (env : ReplEnv) (st : ReplState) : ReplOutcome :=
  match env.cs st.t st.startRev with
  | .absent => .next { st with needWhole := true, t := st.t + 1 }
  | .bad => .threw st .DatabaseError
  | .parsed s e =>
    if s ≠ st.startRev then .threw st .DatabaseError
    else if e ≤ s then .threw st .DatabaseError
    else .next { st with sent := st.sent ++ [ReplMsg.changeset st.startRev],
                         startRev := e,
                         changesetCount := st.changesetCount + 1,
                         changed := st.changed || decide (st.neededRev ≤ e),
                         t := st.t + 1 }

/-- One iteration of the `while (true)` loop of `write_changesets_to_fd`
(chert_database.cc:599-693).  Whole-copy branch: a zero budget sends
`REPL_REPLY_FAIL` ("Database changing too fast") and returns; otherwise
decrement the budget, record the pre-copy revision and UUID, send the
whole database, reopen, and send a footer — the now-current revision when
the UUID is unchanged, or `start_rev_num + 1` plus another full copy when
the database was replaced during the copy.  Otherwise: when caught up,
reopen and either break (sending `REPL_REPLY_END_OF_CHANGES` after the
loop), switch to a full copy on a UUID change, or fall through; then send
the next changeset. -/
def replStep (env : ReplEnv) (st : ReplState) : ReplOutcome :=
  if st.needWhole then
    if st.copiesLeft = 0 then
      .finished { st with sent := st.sent ++ [ReplMsg.fail] }
    else
      let st1 := { st with copiesLeft := st.copiesLeft - 1,
                           startRev := st.curRev, startUuid := st.curUuid,
                           sent := st.sent ++ [ReplMsg.fullCopy st.curRev st.curUuid],
                           fullcopyCount := st.fullcopyCount + 1,
                           needWhole := false }
      let st2 := { st1 with nReopens := st1.nReopens + 1,
                            curRev := env.rev (st1.nReopens + 1),
                            curUuid := env.uuid (st1.nReopens + 1) }
      if st2.startUuid = st2.curUuid then
        .next { st2 with neededRev := st2.curRev,
                         sent := st2.sent ++ [ReplMsg.footer st2.curRev],
                         changed := st2.changed || decide (st2.startRev = st2.curRev),
                         t := st2.t + 1 }
      else
        .next { st2 with sent := st2.sent ++ [ReplMsg.footer (st2.startRev + 1)],
                         needWhole := true, t := st2.t + 1 }
  else
    if st.curRev ≤ st.startRev then
      let st2 := { st with nReopens := st.nReopens + 1,
                           curRev := env.rev (st.nReopens + 1),
                           curUuid := env.uuid (st.nReopens + 1) }
      if st2.startUuid ≠ st2.curUuid then
        .next { st2 with needWhole := true, t := st2.t + 1 }
      else if st2.curRev ≤ st2.startRev then
        .finished { st2 with sent := st2.sent ++ [ReplMsg.endOfChanges] }
      else replChangeset env st2
    else replChangeset env st

/-- Iterate `replStep` with `fuel` iterations allowed: `none` means the
loop was still running after `fuel` iterations; `some (st, none)` a normal
return; `some (st, some e)` a throw. -/
def replRun (env : ReplEnv) : Nat → ReplState → Option (ReplState × Option ChertError)
  | 0, _ => none
  | fuel + 1, st =>
    match replStep env st with
    | .next st' => replRun env fuel st'
    | .finished st' => some (st', none)
    | .threw st' e => some (st', some e)

/-- The entry of `ChertDatabase::write_changesets_to_fd`
(chert_database.cc:569-597): the budget starts at
`MAX_DB_COPIES_PER_CONVERSATION`, `start_uuid` is the current UUID, and
the packed revision token is parsed into `start_rev_num` — an unparsable
token forces `need_whole_db`. -/
def write_changesets_init (env : ReplEnv) (revToken : List Nat)
    (needWholeDb : Bool) : ReplState :=
  { t := 0, nReopens := 0, curRev := env.rev 0, curUuid := env.uuid 0,
    needWhole := (match unpackUint revToken with
                  | none => true
                  | some _ => needWholeDb),
    copiesLeft := MAX_DB_COPIES_PER_CONVERSATION,
    startRev := (match unpackUint revToken with
                 | none => 0
                 | some (s, _) => s),
    startUuid := env.uuid 0,
    neededRev := 0, sent := [], fullcopyCount := 0, changesetCount := 0,
    changed := false }

/-- `write_changesets_to_fd` as a bounded iteration from its entry state. -/
def write_changesets_to_fd (env : ReplEnv) (revToken : List Nat)
    (needWholeDb : Bool) (fuel : Nat) : Option (ReplState × Option ChertError) :=
  replRun env fuel (write_changesets_init env revToken needWholeDb)

/-- The number of whole-database copies reported by a finished (or still
running, counted 0) conversation. -/
def fullcopiesOf (o : Option (ReplState × Option ChertError)) : Nat :=
  match o with
  | none => 0
  | some (st, _) => st.fullcopyCount

/-- The loop never reaches a terminal state from `st`, whatever iteration
bound it is given. -/
def divergesFrom (env : ReplEnv) (st : ReplState) : Prop :=
  ∀ fuel, replRun env fuel st = none

/-- Termination measure for the loop under a revision bound `B`: the
whole-copy budget weighted above the distance from `start_rev_num` to the
bound. -/
def replMeasure (B : Nat) (st : ReplState) : Nat :=
  st.copiesLeft * (B + 3) + (if st.needWhole then 0 else 1 + (B + 1 - st.startRev))

/-- An environment whose writer commits one revision per reopen forever,
with every changeset file present: revision `n + 1` after `n` reopens and
`changes<k>` always spanning `k → k + 1`. -/
def tightLoopEnv : ReplEnv :=
  { rev := fun n => n + 1, uuid := fun _ => 0, cs := fun _ k => .parsed k (k + 1) }

theorem tightLoop_none :
    ∀ fuel (st : ReplState), st.needWhole = false → st.curUuid = 0 →
      st.startUuid = 0 → st.curRev = st.nReopens + 1 → st.startRev ≤ st.curRev →
      replRun tightLoopEnv fuel st = none := by
  intro fuel
  induction fuel with
  | zero => intros; rfl
  | succ fuel ih =>
    intro st h1 h2 h3 h4 h5
    rw [replRun]
    by_cases hc : st.curRev ≤ st.startRev
    · have heq : st.startRev = st.curRev := le_antisymm h5 hc
      have hlt : ¬ (st.nReopens + 1 + 1 ≤ st.startRev) := by omega
      have hee : ¬ (st.startRev + 1 ≤ st.startRev) := by omega
      have hstep : replStep tightLoopEnv st = .next
          { st with nReopens := st.nReopens + 1, curRev := st.nReopens + 1 + 1,
                    curUuid := 0,
                    sent := st.sent ++ [ReplMsg.changeset st.startRev],
                    startRev := st.startRev + 1,
                    changesetCount := st.changesetCount + 1,
                    changed := st.changed || decide (st.neededRev ≤ st.startRev + 1),
                    t := st.t + 1 } := by
        simp [replStep, replChangeset, tightLoopEnv, h1, h2, h3, hc, hlt, hee]
      rw [hstep]
      exact ih _ (by simp [h1]) (by simp) (by simp [h3]) (by simp) (by simp; omega)
    · have hee : ¬ (st.startRev + 1 ≤ st.startRev) := by omega
      have hstep : replStep tightLoopEnv st = .next
          { st with sent := st.sent ++ [ReplMsg.changeset st.startRev],
                    startRev := st.startRev + 1,
                    changesetCount := st.changesetCount + 1,
                    changed := st.changed || decide (st.neededRev ≤ st.startRev + 1),
                    t := st.t + 1 } := by
        simp [replStep, replChangeset, tightLoopEnv, h1, hc, hee]
      rw [hstep]
      exact ih _ (by simp [h1]) (by simp [h2]) (by simp [h3]) (by simp [h4])
        (by simp; omega)

/-- **C5** (counterexample).  `write_changesets_to_fd` does not terminate on
every input: against a writer that commits one new revision during every
reopen and keeps every changeset file available, the driver streams
changesets forever — the whole-copy budget is never consumed, so the
bound on full copies never stops the loop. -/
theorem write_changesets_divergence :
    divergesFrom tightLoopEnv (write_changesets_init tightLoopEnv [0] false) := by
  intro fuel
  apply tightLoop_none
  · simp [write_changesets_init, unpackUint]
  · simp [write_changesets_init, tightLoopEnv]
  · simp [write_changesets_init, tightLoopEnv]
  · simp [write_changesets_init, tightLoopEnv]
  · simp [write_changesets_init, tightLoopEnv, unpackUint]

/-- The state carried by a loop outcome. -/
def outState : ReplOutcome → ReplState
  | .next st => st
  | .finished st => st
  | .threw st _ => st

theorem replStep_conserve (env : ReplEnv) (st : ReplState) :
    (outState (replStep env st)).fullcopyCount + (outState (replStep env st)).copiesLeft =
      st.fullcopyCount + st.copiesLeft := by
  by_cases hw : st.needWhole = true
  · by_cases hz : st.copiesLeft = 0
    · simp [replStep, hw, hz, outState]
    · by_cases hu : st.curUuid = env.uuid (st.nReopens + 1) <;>
        simp [replStep, hw, hz, hu, outState] <;> omega
  · by_cases hc : st.curRev ≤ st.startRev
    · by_cases hu : st.startUuid = env.uuid (st.nReopens + 1)
      · by_cases hc2 : env.rev (st.nReopens + 1) ≤ st.startRev
        · simp [replStep, hw, hc, hu, hc2, outState]
        · cases hcs : env.cs st.t st.startRev with
          | absent => simp [replStep, replChangeset, hw, hc, hu, hc2, hcs, outState]
          | bad => simp [replStep, replChangeset, hw, hc, hu, hc2, hcs, outState]
          | parsed s e =>
            by_cases hs : s = st.startRev
            · by_cases he : e ≤ st.startRev <;>
                simp [replStep, replChangeset, hw, hc, hu, hc2, hcs, hs, he, outState]
            · simp [replStep, replChangeset, hw, hc, hu, hc2, hcs, hs, outState]
      · simp [replStep, hw, hc, hu, outState]
    · cases hcs : env.cs st.t st.startRev with
      | absent => simp [replStep, replChangeset, hw, hc, hcs, outState]
      | bad => simp [replStep, replChangeset, hw, hc, hcs, outState]
      | parsed s e =>
        by_cases hs : s = st.startRev
        · by_cases he : e ≤ st.startRev <;>
            simp [replStep, replChangeset, hw, hc, hcs, hs, he, outState]
        · simp [replStep, replChangeset, hw, hc, hcs, hs, outState]

theorem replRun_conserve (env : ReplEnv) :
    ∀ fuel (st : ReplState) res, replRun env fuel st = some res →
      res.1.fullcopyCount + res.1.copiesLeft = st.fullcopyCount + st.copiesLeft := by
  intro fuel
  induction fuel with
  | zero => intro st res h; simp [replRun] at h
  | succ fuel ih =>
    intro st res h
    rw [replRun] at h
    have hcons := replStep_conserve env st
    cases hstep : replStep env st with
    | next st' =>
      rw [hstep] at h hcons
      simp only [outState] at hcons
      rw [ih st' res h, hcons]
    | finished st' =>
      rw [hstep] at h hcons
      simp only [outState] at hcons
      simp only [Option.some.injEq] at h
      subst h
      simpa using hcons
    | threw st' e =>
      rw [hstep] at h hcons
      simp only [outState] at hcons
      simp only [Option.some.injEq] at h
      subst h
      simpa using hcons

theorem replStep_decrease (env : ReplEnv) (B : Nat) (st st' : ReplState)
    (henv : ∀ n, env.rev n ≤ B) (hcur : st.curRev ≤ B)
    (hstep : replStep env st = .next st') :
    st'.curRev ≤ B ∧ replMeasure B st' < replMeasure B st := by
  by_cases hw : st.needWhole = true
  · by_cases hz : st.copiesLeft = 0
    · simp [replStep, hw, hz] at hstep
    · obtain ⟨c', hc'⟩ : ∃ c', st.copiesLeft = c' + 1 :=
        ⟨st.copiesLeft - 1, by omega⟩
      by_cases hu : st.curUuid = env.uuid (st.nReopens + 1)
      · simp [replStep, hw, hz, hu] at hstep
        subst hstep
        refine ⟨henv _, ?_⟩
        simp only [replMeasure, hw, hc', if_true, if_false, ite_false, ite_true,
          Bool.false_eq_true, Nat.add_sub_cancel]
        rw [Nat.succ_mul]
        have := henv (st.nReopens + 1)
        omega
      · simp [replStep, hw, hz, hu] at hstep
        subst hstep
        refine ⟨henv _, ?_⟩
        simp only [replMeasure, hw, hc', ite_true, Nat.add_sub_cancel]
        rw [Nat.succ_mul]
        omega
  · by_cases hc : st.curRev ≤ st.startRev
    · by_cases hu : st.startUuid = env.uuid (st.nReopens + 1)
      · by_cases hc2 : env.rev (st.nReopens + 1) ≤ st.startRev
        · simp [replStep, hw, hc, hu, hc2] at hstep
        · cases hcs : env.cs st.t st.startRev with
          | absent =>
            simp [replStep, replChangeset, hw, hc, hu, hc2, hcs] at hstep
            subst hstep
            refine ⟨henv _, ?_⟩
            simp only [replMeasure, hw, Bool.false_eq_true, ite_false, ite_true]
            omega
          | bad => simp [replStep, replChangeset, hw, hc, hu, hc2, hcs] at hstep
          | parsed s e =>
            by_cases hs : s = st.startRev
            · by_cases he : e ≤ st.startRev
              · simp [replStep, replChangeset, hw, hc, hu, hc2, hcs, hs, he] at hstep
              · simp [replStep, replChangeset, hw, hc, hu, hc2, hcs, hs, he] at hstep
                subst hstep
                refine ⟨henv _, ?_⟩
                simp only [replMeasure, hw, Bool.false_eq_true, ite_false]
                have h1 := henv (st.nReopens + 1)
                omega
            · simp [replStep, replChangeset, hw, hc, hu, hc2, hcs, hs] at hstep
      · simp [replStep, hw, hc, hu] at hstep
        subst hstep
        refine ⟨henv _, ?_⟩
        simp only [replMeasure, hw, Bool.false_eq_true, ite_false, ite_true]
        omega
    · cases hcs : env.cs st.t st.startRev with
      | absent =>
        simp [replStep, replChangeset, hw, hc, hcs] at hstep
        subst hstep
        refine ⟨hcur, ?_⟩
        simp only [replMeasure, hw, Bool.false_eq_true, ite_false, ite_true]
        omega
      | bad => simp [replStep, replChangeset, hw, hc, hcs] at hstep
      | parsed s e =>
        by_cases hs : s = st.startRev
        · by_cases he : e ≤ st.startRev
          · simp [replStep, replChangeset, hw, hc, hcs, hs, he] at hstep
          · simp [replStep, replChangeset, hw, hc, hcs, hs, he] at hstep
            subst hstep
            refine ⟨hcur, ?_⟩
            simp only [replMeasure, hw, Bool.false_eq_true, ite_false]
            omega
        · simp [replStep, replChangeset, hw, hc, hcs, hs] at hstep

theorem replRun_isSome (env : ReplEnv) (B : Nat)
    (henv : ∀ n, env.rev n ≤ B) :
    ∀ fuel (st : ReplState), st.curRev ≤ B → replMeasure B st < fuel →
      (replRun env fuel st).isSome = true := by
  intro fuel
  induction fuel with
  | zero => intro st _ h; omega
  | succ fuel ih =>
    intro st hcur hm
    rw [replRun]
    cases hstep : replStep env st with
    | next st' =>
      obtain ⟨h1, h2⟩ := replStep_decrease env B st st' henv hcur hstep
      exact ih st' h1 (by omega)
    | finished st' => simp
    | threw st' e => simp

/-- **C5** (amended).  `write_changesets_to_fd` need not terminate against
an unbounded writer (see the divergence counterexample), but: (i) it
terminates within `replMeasure B` + 1 iterations whenever every revision
observable at reopen is bounded by `B`; (ii) in any run the number of
whole-database copies sent never exceeds `MAX_DB_COPIES_PER_CONVERSATION`;
and (iii) when the copy budget is exhausted and another whole copy is
needed, the driver sends `REPL_REPLY_FAIL` ("Database changing too fast")
and returns instead of looping. -/
theorem write_changesets_bounded :
    (∀ (env : ReplEnv) (B : Nat) (revToken : List Nat) (nw : Bool),
      (∀ n, env.rev n ≤ B) →
      (replRun env (replMeasure B (write_changesets_init env revToken nw) + 1)
        (write_changesets_init env revToken nw)).isSome = true) ∧
    (∀ (env : ReplEnv) (revToken : List Nat) (nw : Bool) (fuel : Nat),
      fullcopiesOf (write_changesets_to_fd env revToken nw fuel) ≤
        MAX_DB_COPIES_PER_CONVERSATION) ∧
    (∀ (env : ReplEnv) (st : ReplState), st.needWhole = true → st.copiesLeft = 0 →
      replStep env st = .finished { st with sent := st.sent ++ [ReplMsg.fail] }) := by
  refine ⟨?_, ?_, ?_⟩
  · intro env B revToken nw henv
    apply replRun_isSome env B henv
    · show (write_changesets_init env revToken nw).curRev ≤ B
      simpa [write_changesets_init] using henv 0
    · omega
  · intro env revToken nw fuel
    unfold fullcopiesOf write_changesets_to_fd
    cases hres : replRun env fuel (write_changesets_init env revToken nw) with
    | none => simp [MAX_DB_COPIES_PER_CONVERSATION]
    | some res =>
      obtain ⟨st1, o1⟩ := res
      have hcons := replRun_conserve env fuel _ (st1, o1) hres
      simp [write_changesets_init] at hcons
      show st1.fullcopyCount ≤ MAX_DB_COPIES_PER_CONVERSATION
      omega
  · intro env st hw hz
    simp [replStep, hw, hz]

/-- A quiet environment: revision 0 forever, a fixed UUID, no changeset
files. -/
def calmEnv : ReplEnv :=
  { rev := fun _ => 0, uuid := fun _ => 0, cs := fun _ _ => .absent }

/-- Witness for C5 (amended) at concrete inputs: the bounded-revision
termination holds of `calmEnv` with bound 0, the full-copy bound holds of
a 3-iteration run, and the exhausted-budget step emits the failure
message. -/
theorem write_changesets_bounded_witness :
    (replRun calmEnv (replMeasure 0 (write_changesets_init calmEnv [0] false) + 1)
      (write_changesets_init calmEnv [0] false)).isSome = true ∧
    fullcopiesOf (write_changesets_to_fd calmEnv [0] false 3) ≤
      MAX_DB_COPIES_PER_CONVERSATION ∧
    replStep calmEnv
      { t := 0, nReopens := 0, curRev := 0, curUuid := 0, needWhole := true,
        copiesLeft := 0, startRev := 0, startUuid := 0, neededRev := 0, sent := [],
        fullcopyCount := 0, changesetCount := 0, changed := false } =
      .finished
        { t := 0, nReopens := 0, curRev := 0, curUuid := 0, needWhole := true,
          copiesLeft := 0, startRev := 0, startUuid := 0, neededRev := 0,
          sent := [ReplMsg.fail], fullcopyCount := 0, changesetCount := 0,
          changed := false } := by
  refine ⟨?_, ?_, ?_⟩
  · exact write_changesets_bounded.1 calmEnv 0 [0] false (fun n => le_refl 0)
  · exact write_changesets_bounded.2.1 calmEnv [0] false 3
  · have h := write_changesets_bounded.2.2 calmEnv
      { t := 0, nReopens := 0, curRev := 0, curUuid := 0, needWhole := true,
        copiesLeft := 0, startRev := 0, startUuid := 0, neededRev := 0, sent := [],
        fullcopyCount := 0, changesetCount := 0, changed := false } rfl rfl
    simpa using h
